import Mathlib

/-!
Verification development for the flood-dashboard pipeline.

The pipeline's analytic core is embedded shallowly:

* numeric cells of a pandas float column are modelled by `PVal`, a rational
  number extended with the IEEE special values NaN (pandas "null") and ±infinity,
  with subtraction, division, multiplication and the `>=` comparison following
  IEEE semantics (division by zero yields a signed infinity, every comparison
  with NaN is false);
* tables are lists of structures whose fields keep the CSV column names;
* timestamps are integers (seconds); day-of-year is a natural number.

Embedded operations, in source order:
* `compute_rate_of_change`  from analyze_rate_of_change.py
* `compare_to_historical`   from compare_to_p90.py
* `append_and_trim`, `load_last_timestamp` from fetch_data.py
* `fetch_va_dv_chunk`, `compute_p90_by_day` from fetch_historical.py
-/

/-- Subtraction on ℚ phrased through the kernel-reducible `Rat.divInt`
(Batteries makes `Rat.sub` irreducible); `qsub_eq` identifies it with `-`. -/
def qsub (a b : ℚ) : ℚ :=
  Rat.divInt (a.num * (b.den : ℤ) - b.num * (a.den : ℤ)) ((a.den : ℤ) * (b.den : ℤ))

/-- Multiplication on ℚ through `Rat.divInt`; `qmul_eq` identifies it with `*`. -/
def qmul (a b : ℚ) : ℚ := Rat.divInt (a.num * b.num) ((a.den : ℤ) * (b.den : ℤ))

/-- Division on ℚ through `Rat.divInt`; `qdiv_eq` identifies it with `/`. -/
def qdiv (a b : ℚ) : ℚ := Rat.divInt (a.num * (b.den : ℤ)) (b.num * (a.den : ℤ))

/-- Addition on ℚ through `Rat.divInt`; `qadd_eq` identifies it with `+`. -/
def qadd (a b : ℚ) : ℚ :=
  Rat.divInt (a.num * (b.den : ℤ) + b.num * (a.den : ℤ)) ((a.den : ℤ) * (b.den : ℤ))

/-- A pandas float cell: NaN (displayed as null), plus or minus infinity, or a
rational number standing for the IEEE double. -/
inductive PVal where
  | nan : PVal
  | pinf : PVal
  | ninf : PVal
  | num : ℚ → PVal
deriving DecidableEq, Repr

namespace PVal

/-- IEEE subtraction restricted to the modelled values. -/
def sub : PVal → PVal → PVal
  | nan, _ => nan
  | _, nan => nan
  | pinf, pinf => nan
  | pinf, _ => pinf
  | ninf, ninf => nan
  | ninf, _ => ninf
  | num _, pinf => ninf
  | num _, ninf => pinf
  | num x, num y => num (qsub x y)

/-- IEEE division: a nonzero number divided by zero is a signed infinity,
0/0 is NaN, anything with NaN is NaN. -/
def div : PVal → PVal → PVal
  | nan, _ => nan
  | _, nan => nan
  | pinf, pinf => nan
  | pinf, ninf => nan
  | ninf, pinf => nan
  | ninf, ninf => nan
  | pinf, num y => if 0 ≤ y then pinf else ninf
  | ninf, num y => if 0 ≤ y then ninf else pinf
  | num _, pinf => num 0
  | num _, ninf => num 0
  | num x, num y =>
      if y = 0 then (if x = 0 then nan else if 0 < x then pinf else ninf)
      else num (qdiv x y)

/-- IEEE multiplication: infinity times zero is NaN, anything with NaN is NaN. -/
def mul : PVal → PVal → PVal
  | nan, _ => nan
  | _, nan => nan
  | pinf, pinf => pinf
  | pinf, ninf => ninf
  | ninf, pinf => ninf
  | ninf, ninf => pinf
  | pinf, num y => if y = 0 then nan else if 0 < y then pinf else ninf
  | ninf, num y => if y = 0 then nan else if 0 < y then ninf else pinf
  | num x, pinf => if x = 0 then nan else if 0 < x then pinf else ninf
  | num x, ninf => if x = 0 then nan else if 0 < x then ninf else pinf
  | num x, num y => num (qmul x y)

/-- IEEE greater-or-equal: every comparison involving NaN is false. -/
def ge : PVal → PVal → Bool
  | nan, _ => false
  | _, nan => false
  | pinf, _ => true
  | ninf, ninf => true
  | ninf, _ => false
  | num _, pinf => false
  | num _, ninf => true
  | num x, num y => decide (y ≤ x)

end PVal

/-! ## analyze_rate_of_change.py -/

/-- One row of the observation CSV consumed by `compute_rate_of_change`
(columns site_no, site_name, timestamp_utc, flow_cfs). -/
structure Row where
  site_no : String
  site_name : String
  timestamp_utc : ℤ
  flow_cfs : PVal
deriving DecidableEq, Repr

/-- The configured lookback windows: WINDOWS = {"1h": 12, "3h": 36, "6h": 72}. -/
def WINDOWS : List (String × Nat) := [("1h", 12), ("3h", 36), ("6h", 72)]

/-- Element `i` of `x.shift(w)` for a column `xs`: NaN for the first `w`
positions, the value `w` rows earlier after that. -/
def shiftAt (w : Nat) (xs : List PVal) (i : Nat) : PVal :=
  if i < w then PVal.nan else xs.getD (i - w) PVal.nan

/-- Element `i` of the column `(x - x.shift(w)) / x.shift(w) * 100`. -/
def pctAt (w : Nat) (xs : List PVal) (i : Nat) : PVal :=
  (((xs.getD i PVal.nan).sub (shiftAt w xs i)).div (shiftAt w xs i)).mul (PVal.num 100)

/-- The `pct_change_{label}` cells of row `i`, one per configured window
(the loop `for label, window in WINDOWS.items()`). -/
def pctsFor (xs : List PVal) (i : Nat) : List (String × PVal) :=
  WINDOWS.map (fun lw => (lw.1, pctAt lw.2 xs i))

/-- Ordering by timestamp, the sort key inside one site's group. -/
def tsLe (a b : Row) : Prop := a.timestamp_utc ≤ b.timestamp_utc

instance : DecidableRel tsLe := fun a b => Int.decLe a.timestamp_utc b.timestamp_utc

instance : IsTotal Row tsLe := ⟨fun a b => Int.le_total a.timestamp_utc b.timestamp_utc⟩

instance : IsTrans Row tsLe := ⟨fun _ _ _ hab hbc => le_trans hab hbc⟩

/-- One site's series after `df.sort_values(["site_no", "timestamp_utc"])`:
the site's rows in ascending timestamp order. -/
def siteSeries (tbl : List Row) (s : String) : List Row :=
  List.insertionSort tsLe (tbl.filter (fun r => r.site_no == s))

/-- One row of the rate-of-change output (site_no, site_name, timestamp_utc,
flow_cfs, and the pct_change columns keyed by window label). -/
structure ResRow where
  site_no : String
  site_name : String
  timestamp_utc : ℤ
  flow_cfs : PVal
  pcts : List (String × PVal)
deriving DecidableEq, Repr

/-- The site's row kept by `df.sort_values("timestamp_utc").groupby("site_no").tail(1)`:
the last row of the site's sorted series, carrying the pct_change values computed
at its position in that series. `none` when the site has no rows. -/
def latestResult (tbl : List Row) (s : String) : Option ResRow :=
  match (siteSeries tbl s).getLast? with
  | none => none
  | some last =>
      some { site_no := s, site_name := last.site_name,
             timestamp_utc := last.timestamp_utc, flow_cfs := last.flow_cfs,
             pcts := pctsFor ((siteSeries tbl s).map Row.flow_cfs)
                            ((siteSeries tbl s).length - 1) }

/-- The distinct sites of the table, the groups of `groupby("site_no")`. -/
def sitesOf (tbl : List Row) : List String := (tbl.map Row.site_no).dedup

/-- `compute_rate_of_change` of analyze_rate_of_change.py: per-site pct_change
columns over the sorted series, then the most recent record of each site. -/
def compute_rate_of_change (tbl : List Row) : List ResRow :=
  (sitesOf tbl).filterMap (latestResult tbl)

/-- The spec's concrete scenario: site "X1", 72 samples of flow 10 at regular
spacing, then one sample of flow 15. -/
def exTbl : List Row :=
  (List.range 73).map (fun i =>
    { site_no := "X1", site_name := "Site X1", timestamp_utc := (i : ℤ) * 300,
      flow_cfs := if i == 72 then PVal.num 15 else PVal.num 10 })

/-- The flow column of the concrete scenario's series restricted to its last
13 samples, used to instantiate the general pct-change formula. -/
def exFlows : List PVal := List.replicate 12 (PVal.num 10) ++ [PVal.num 15]

/-- A series whose 1h-lookback value for the last row is exactly zero:
one sample of flow 0 followed by twelve samples of flow 10. -/
def c2Tbl : List Row :=
  (List.range 13).map (fun i =>
    { site_no := "X1", site_name := "Site X1", timestamp_utc := (i : ℤ) * 300,
      flow_cfs := if i == 0 then PVal.num 0 else PVal.num 10 })

/-! ## compare_to_p90.py -/

/-- One prepared current row (after `prepare_current_data` added day_of_year). -/
structure CurRow where
  site_no : String
  site_name : String
  timestamp_utc : ℤ
  day_of_year : ℕ
  flow_cfs : PVal
deriving DecidableEq, Repr

/-- One row of the historical baseline table historical_p90.csv. -/
structure HistRow where
  site_no : String
  day_of_year : ℕ
  p90_flow_cfs : PVal
deriving DecidableEq, Repr

/-- One output row of the comparison (high_flow_summary.csv columns). -/
structure CmpRow where
  site_no : String
  site_name : String
  timestamp_utc : ℤ
  flow_cfs : PVal
  p90_flow_cfs : PVal
  ratio : PVal
  high_flow : Bool
deriving DecidableEq, Repr

/-- A merged row with baseline cell `p`: the columns
`merged["ratio"] = merged["flow_cfs"] / merged["p90_flow_cfs"]` and
`merged["high_flow"] = merged["ratio"] >= 1.0`. -/
def mkCmpRow (c : CurRow) (p : PVal) : CmpRow :=
  { site_no := c.site_no, site_name := c.site_name, timestamp_utc := c.timestamp_utc,
    flow_cfs := c.flow_cfs, p90_flow_cfs := p,
    ratio := c.flow_cfs.div p, high_flow := (c.flow_cfs.div p).ge (PVal.num 1) }

/-- The baseline rows matching a current row's (site_no, day_of_year) join key. -/
def histMatches (hist : List HistRow) (c : CurRow) : List HistRow :=
  hist.filter (fun h => h.site_no == c.site_no && h.day_of_year == c.day_of_year)

/-- `compare_to_historical` of compare_to_p90.py: the left merge
`pd.merge(df_current, df_hist, how="left", on=["site_no", "day_of_year"])`
followed by the ratio and high_flow columns. A current row with no baseline
match yields one output row whose p90 cell is NaN; a row with matches yields
one output row per match. -/
def compare_to_historical (cur : List CurRow) (hist : List HistRow) : List CmpRow :=
  cur.flatMap (fun c =>
    match histMatches hist c with
    | [] => [mkCmpRow c PVal.nan]
    | ms => ms.map (fun h => mkCmpRow c h.p90_flow_cfs))

/-- The merge key of a baseline row. -/
def keyOf (h : HistRow) : String × ℕ := (h.site_no, h.day_of_year)

/-- A current row whose flow is above a zero baseline. -/
def c3cur : List CurRow := [⟨"X1", "Site X1", 0, 200, PVal.num 120⟩]

/-- A baseline table whose only entry is zero. -/
def c3hist : List HistRow := [⟨"X1", 200, PVal.num 0⟩]

/-- The spec's missing-baseline scenario: an X2 reading on day 200 with no
baseline row for (X2, 200). -/
def c4cur : List CurRow := [⟨"X2", "Site X2", 0, 200, PVal.num 7⟩]

/-- A current reading exactly at its baseline (ratio exactly 1). -/
def c4curOne : List CurRow := [⟨"X1", "Site X1", 0, 200, PVal.num 100⟩]

/-- A current reading just below its baseline (ratio 0.999999). -/
def c4curBelow : List CurRow := [⟨"X1", "Site X1", 0, 200, PVal.num 999999⟩]

/-- A baseline of 100 for (X1, 200). -/
def c4hist100 : List HistRow := [⟨"X1", 200, PVal.num 100⟩]

/-- A baseline of 1000000 for (X1, 200). -/
def c4histM : List HistRow := [⟨"X1", 200, PVal.num 1000000⟩]

/-! ## fetch_data.py -/

/-- One stored observation row of gauge_data.csv. -/
structure Obs where
  site_no : String
  site_name : String
  timestamp_utc : ℤ
  flow_cfs : PVal
  latitude : ℚ
  longitude : ℚ
deriving DecidableEq, Repr

/-- `append_and_trim` of fetch_data.py: concatenate the stored rows and the new
rows, then keep exactly those whose timestamp is at or after
`now − hours` (timestamps in seconds, so the cutoff is `now − hours * 3600`).
No deduplication is performed. -/
def append_and_trim (df_old df_new : List Obs) (now hours : ℤ) : List Obs :=
  (df_old ++ df_new).filter (fun o => decide (now - hours * 3600 ≤ o.timestamp_utc))

/-- The maximum of a timestamp column, `df["timestamp_utc"].max()` (meaningful
for a nonempty column; the default for the empty column is never used). -/
def tsMax (l : List ℤ) : ℤ := l.foldl max (l.headD 0)

/-- `load_last_timestamp` of fetch_data.py: the store is `none` when the CSV
file does not exist and `some l` with `l` its timestamp column otherwise.
Returns the newest stored timestamp plus one second, or `now − 24h` on a
missing file. -/
def load_last_timestamp (store : Option (List ℤ)) (now : ℤ) : ℤ :=
  match store with
  | some ts => tsMax ts + 1
  | none => now - 24 * 3600

/-- A stored observation at timestamp 0. -/
def obsA : Obs := ⟨"A", "Site A", 0, PVal.num 1, 37, -78⟩

/-! ## fetch_historical.py -/

/-- The raw daily value string of one record as the fetch loop sees it:
absent (None), or a text the `float()` call rejects ("", "Ice", other
non-numeric text), or a numeric string with its parsed value. -/
inductive RawVal where
  | null : RawVal
  | text : String → RawVal
  | numeric : ℚ → RawVal
deriving DecidableEq, Repr

/-- One raw record of the daily-values response; the calendar date is
abstracted to its day-of-year. -/
structure RawDV where
  site_no : String
  site_name : String
  day_of_year : ℕ
  lat : ℚ
  val : RawVal
deriving DecidableEq, Repr

/-- One kept record: numeric flow only. -/
structure DVRecord where
  site_no : String
  site_name : String
  day_of_year : ℕ
  lat : ℚ
  flow_cfs : ℚ
deriving DecidableEq, Repr

/-- The filter of the fetch loop: `if val_str in (None, "", "Ice"): continue`
then `try: flow = float(val_str) except ValueError: continue` — only a numeric
value survives, with its parsed rational. -/
def keepVal : RawVal → Option ℚ
  | RawVal.numeric q => some q
  | _ => none

/-- `fetch_va_dv_chunk` of fetch_historical.py restricted to its row-building
loop: a record whose value is absent or non-numeric is skipped entirely;
a numeric record is kept with its parsed flow. -/
def fetch_va_dv_chunk (raws : List RawDV) : List DVRecord :=
  raws.filterMap (fun r => (keepVal r.val).map
    (fun q => ⟨r.site_no, r.site_name, r.day_of_year, r.lat, q⟩))

/-- The `north_south` column: "north" iff latitude ≥ 37.5. -/
def regionOf (lat : ℚ) : String := if Rat.divInt 75 2 ≤ lat then "north" else "south"

/-- The groupby key (site_no, site_name, north_south, day_of_year). -/
def groupKey (d : DVRecord) : String × String × String × ℕ :=
  (d.site_no, d.site_name, regionOf d.lat, d.day_of_year)

/-- The pandas `quantile(0.9)` with its default linear interpolation, exact
over ℚ: on the ascending sort of the values, position `0.9 * (n − 1)`,
interpolating between the two neighbouring order statistics. Meaningful for a
nonempty list (pandas groups are nonempty). -/
def quantile90 (l : List ℚ) : ℚ :=
  let sorted := List.insertionSort (fun a b : ℚ => a ≤ b) l
  let pos : ℚ := qmul (Rat.divInt 9 10) (Rat.divInt ((sorted.length : ℤ) - 1) 1)
  let i : ℕ := pos.floor.toNat
  let frac : ℚ := qsub pos (Rat.divInt pos.floor 1)
  let lo := sorted.getD i 0
  qadd lo (qmul frac (qsub (sorted.getD (i + 1) lo) lo))

/-- `compute_p90_by_day` of fetch_historical.py: group the kept records by
(site_no, site_name, north_south, day_of_year) and take the 0.9 quantile of
each group's flow values. -/
def compute_p90_by_day (data : List DVRecord) :
    List ((String × String × String × ℕ) × ℚ) :=
  ((data.map groupKey).dedup).map (fun k =>
    (k, quantile90 ((data.filter (fun d => decide (groupKey d = k))).map DVRecord.flow_cfs)))

/-- A raw history whose only (X3, 200) readings are non-numeric. -/
def raws10 : List RawDV :=
  [⟨"X3", "Site X3", 200, 38, RawVal.text "Ice"⟩,
   ⟨"X3", "Site X3", 201, 38, RawVal.numeric 5⟩,
   ⟨"X3", "Site X3", 201, 38, RawVal.null⟩,
   ⟨"X3", "Site X3", 201, 38, RawVal.numeric 10⟩]

/-- A concrete output row of `compare_to_historical c3cur c3hist`. -/
def c3row : CmpRow := ⟨"X1", "Site X1", 0, PVal.num 120, PVal.num 0, PVal.pinf, true⟩

/-- The output row of the missing-baseline scenario. -/
def c4row : CmpRow := ⟨"X2", "Site X2", 0, PVal.num 7, PVal.nan, PVal.nan, false⟩

/-- The single output row of the concrete 73-sample scenario. -/
def c8row : ResRow := ⟨"X1", "Site X1", 21600, PVal.num 15,
  [("1h", PVal.num 50), ("3h", PVal.num 50), ("6h", PVal.num 50)]⟩

/-! ## Helper lemmas -/

theorem qadd_eq (a b : ℚ) : qadd a b = a + b := by
  rw [qadd, Rat.divInt_eq_div]
  have ha : ((a.den : ℚ)) ≠ 0 := by exact_mod_cast a.den_ne_zero
  have hb : ((b.den : ℚ)) ≠ 0 := by exact_mod_cast b.den_ne_zero
  conv_rhs => rw [← Rat.num_div_den a, ← Rat.num_div_den b]
  push_cast
  field_simp

theorem qsub_eq (a b : ℚ) : qsub a b = a - b := by
  rw [qsub, Rat.divInt_eq_div]
  have ha : ((a.den : ℚ)) ≠ 0 := by exact_mod_cast a.den_ne_zero
  have hb : ((b.den : ℚ)) ≠ 0 := by exact_mod_cast b.den_ne_zero
  conv_rhs => rw [← Rat.num_div_den a, ← Rat.num_div_den b]
  push_cast
  field_simp
  ring

theorem qmul_eq (a b : ℚ) : qmul a b = a * b := by
  rw [qmul, Rat.divInt_eq_div]
  have ha : ((a.den : ℚ)) ≠ 0 := by exact_mod_cast a.den_ne_zero
  have hb : ((b.den : ℚ)) ≠ 0 := by exact_mod_cast b.den_ne_zero
  conv_rhs => rw [← Rat.num_div_den a, ← Rat.num_div_den b]
  push_cast
  field_simp

theorem qdiv_eq (a b : ℚ) : qdiv a b = a / b := by
  rcases eq_or_ne b 0 with hb0 | hb0
  · subst hb0
    simp [qdiv, Rat.divInt_zero]
  · have hbn : b.num ≠ 0 := Rat.num_ne_zero.mpr hb0
    rw [qdiv, Rat.divInt_eq_div]
    have ha : ((a.den : ℚ)) ≠ 0 := by exact_mod_cast a.den_ne_zero
    have hb : ((b.den : ℚ)) ≠ 0 := by exact_mod_cast b.den_ne_zero
    have hbn' : ((b.num : ℚ)) ≠ 0 := by exact_mod_cast hbn
    conv_rhs => rw [← Rat.num_div_den a, ← Rat.num_div_den b]
    push_cast
    field_simp
    exact Or.inl (mul_comm _ _)

theorem PVal.sub_nan (x : PVal) : x.sub PVal.nan = PVal.nan := by cases x <;> rfl

theorem PVal.nan_div (x : PVal) : PVal.nan.div x = PVal.nan := by cases x <;> rfl

theorem PVal.div_nan (x : PVal) : x.div PVal.nan = PVal.nan := by cases x <;> rfl

theorem PVal.nan_mul (x : PVal) : PVal.nan.mul x = PVal.nan := by cases x <;> rfl

theorem pctAt_of_low (w i : ℕ) (xs : List PVal) (h : i < w) :
    pctAt w xs i = PVal.nan := by
  unfold pctAt shiftAt
  rw [if_pos h, PVal.sub_nan, PVal.nan_div, PVal.nan_mul]

theorem pctAt_of_shift_nan (w i : ℕ) (xs : List PVal)
    (h : xs.getD (i - w) PVal.nan = PVal.nan) : pctAt w xs i = PVal.nan := by
  by_cases hlt : i < w
  · exact pctAt_of_low w i xs hlt
  · unfold pctAt shiftAt
    rw [if_neg hlt, h, PVal.sub_nan, PVal.nan_div, PVal.nan_mul]

theorem pctAt_of_num (w i : ℕ) (xs : List PVal) (a b : ℚ) (hw : w ≤ i)
    (ha : xs.getD i PVal.nan = PVal.num a) (hb : xs.getD (i - w) PVal.nan = PVal.num b)
    (hb0 : b ≠ 0) : pctAt w xs i = PVal.num ((a - b) / b * 100) := by
  unfold pctAt shiftAt
  rw [if_neg (Nat.not_lt.mpr hw), ha, hb]
  show (((PVal.num a).sub (PVal.num b)).div (PVal.num b)).mul (PVal.num 100) = _
  simp only [PVal.sub, PVal.div, PVal.mul, if_neg hb0, qsub_eq, qdiv_eq, qmul_eq]

theorem pctAt_of_zero_shift (w i : ℕ) (xs : List PVal) (a : ℚ) (hw : w ≤ i)
    (ha : xs.getD i PVal.nan = PVal.num a) (hb : xs.getD (i - w) PVal.nan = PVal.num 0) :
    pctAt w xs i =
      (if 0 < a then PVal.pinf else if a < 0 then PVal.ninf else PVal.nan) := by
  unfold pctAt shiftAt
  rw [if_neg (Nat.not_lt.mpr hw), ha, hb]
  show (((PVal.num a).sub (PVal.num 0)).div (PVal.num 0)).mul (PVal.num 100) = _
  have hsub : qsub a 0 = a := by rw [qsub_eq, sub_zero]
  simp only [PVal.sub, PVal.div, hsub, if_pos rfl]
  rcases lt_trichotomy a 0 with hneg | hzero | hpos
  · rw [if_neg hneg.ne, if_neg (not_lt.mpr hneg.le)]
    rw [if_neg (not_lt.mpr hneg.le), if_pos hneg]
    show PVal.ninf.mul (PVal.num 100) = PVal.ninf
    simp only [PVal.mul]
    norm_num
  · subst hzero
    simp only [if_pos rfl, lt_irrefl, if_neg (lt_irrefl 0)]
    rfl
  · rw [if_neg hpos.ne', if_pos hpos, if_pos hpos]
    show PVal.pinf.mul (PVal.num 100) = PVal.pinf
    simp only [PVal.mul]
    norm_num

/-! ## C1 and C2: the rate-of-change computation -/

/-- C1: after sorting each site's series ascending by timestamp, the
rate-of-change computation assigns, for each configured (label, lookback)
pair — 1h=12, 3h=36, 6h=72 samples — the value
`(flow_t − flow_{t−lookback}) / flow_{t−lookback} * 100`, the lookback counting
rows in the site's own sorted series; and on 72 samples of flow 10 followed by
one of flow 15, the last row's pct_change_1h is exactly 50. -/
theorem c1_rate_of_change_formula :
    (∀ (xs : List PVal) (lw : String × ℕ) (i : ℕ) (a b : ℚ),
        lw ∈ WINDOWS → lw.2 ≤ i →
        xs.getD i PVal.nan = PVal.num a → xs.getD (i - lw.2) PVal.nan = PVal.num b →
        b ≠ 0 → pctAt lw.2 xs i = PVal.num ((a - b) / b * 100))
    ∧ WINDOWS = [("1h", 12), ("3h", 36), ("6h", 72)]
    ∧ (compute_rate_of_change exTbl).map ResRow.pcts =
        [[("1h", PVal.num 50), ("3h", PVal.num 50), ("6h", PVal.num 50)]] := by
  refine ⟨?_, rfl, by decide⟩
  intro xs lw i a b _ hw ha hb hb0
  exact pctAt_of_num lw.2 i xs a b hw ha hb hb0

/-- Witness for C1: the general formula applied to the last 13 samples of the
spec's concrete series. -/
theorem c1_rate_of_change_formula_witness :
    pctAt 12 exFlows 12 = PVal.num ((15 - 10) / 10 * 100) :=
  c1_rate_of_change_formula.1 exFlows ("1h", 12) 12 15 10 (by decide) (by decide)
    (by decide) (by decide) (by decide)

/-- C2 counterexample: in a series whose 1h-lookback flow is exactly zero
(one sample of 0 followed by twelve of 10), the last row's pct_change_1h is
+infinity, not null as the claim requires. -/
theorem c2_counterexample :
    (compute_rate_of_change c2Tbl).map ResRow.pcts =
      [[("1h", PVal.pinf), ("3h", PVal.nan), ("6h", PVal.nan)]]
    ∧ PVal.pinf ≠ PVal.nan := by decide

/-- C2 as amended: a row with fewer than lookback prior samples, or whose
lookback-earlier flow is null, gets a null pct_change and the computation never
raises; but a zero earlier flow yields +infinity when the current flow is
positive (−infinity when negative), and null only when the current flow is
zero too. -/
theorem c2_null_propagation : ∀ (xs : List PVal) (w i : ℕ),
    (i < w → pctAt w xs i = PVal.nan)
    ∧ (xs.getD (i - w) PVal.nan = PVal.nan → pctAt w xs i = PVal.nan)
    ∧ (∀ a : ℚ, w ≤ i → xs.getD (i - w) PVal.nan = PVal.num 0 →
        xs.getD i PVal.nan = PVal.num a →
        pctAt w xs i =
          (if 0 < a then PVal.pinf else if a < 0 then PVal.ninf else PVal.nan)) := by
  intro xs w i
  refine ⟨pctAt_of_low w i xs, pctAt_of_shift_nan w i xs, ?_⟩
  intro a hw hb ha
  exact pctAt_of_zero_shift w i xs a hw ha hb

/-- Witness for C2's amended statement: too few prior samples yield null. -/
theorem c2_null_propagation_witness : pctAt 12 exFlows 3 = PVal.nan :=
  (c2_null_propagation exFlows 12 3).1 (by decide)

/-! ## C6 and C7: append_and_trim -/

/-- C6 counterexample: appending an observation identical to an already stored
one leaves two rows for that (site, timestamp) key — `append_and_trim` does
not deduplicate. -/
theorem c6_counterexample :
    ¬ ((append_and_trim [obsA] [obsA] 0 24).countP
        (fun o => o.site_no == "A" && o.timestamp_utc == (0 : ℤ)) ≤ 1) := by decide

/-- C6 as amended: the append operation concatenates the stored and new rows
and trims by the retention cutoff only; it never deduplicates, so the stored
count for a (site, timestamp) key inside the retention window is the sum of the
old and new occurrence counts (and zero outside the window). -/
theorem c6_no_dedup : ∀ (df_old df_new : List Obs) (now hours : ℤ) (s : String) (t : ℤ),
    (now - hours * 3600 ≤ t →
      (append_and_trim df_old df_new now hours).countP
          (fun o => o.site_no == s && o.timestamp_utc == t) =
        df_old.countP (fun o => o.site_no == s && o.timestamp_utc == t) +
          df_new.countP (fun o => o.site_no == s && o.timestamp_utc == t))
    ∧ (t < now - hours * 3600 →
      (append_and_trim df_old df_new now hours).countP
          (fun o => o.site_no == s && o.timestamp_utc == t) = 0) := by
  intro df_old df_new now hours s t
  constructor
  · intro ht
    unfold append_and_trim
    rw [List.countP_filter, ← List.countP_append]
    apply List.countP_congr
    intro o _
    constructor
    · intro h
      exact (Bool.and_elim_left h)
    · intro h
      refine Bool.and_intro h ?_
      have : o.timestamp_utc = t := by
        have h2 := Bool.and_elim_right h
        exact eq_of_beq h2
      rw [this]
      exact decide_eq_true ht
  · intro ht
    unfold append_and_trim
    rw [List.countP_filter]
    rw [List.countP_eq_zero]
    intro o _
    intro hcontra
    have h1 := Bool.and_elim_right (Bool.and_elim_left hcontra)
    have h2 := Bool.and_elim_right hcontra
    have hts : o.timestamp_utc = t := eq_of_beq h1
    have hge : now - hours * 3600 ≤ o.timestamp_utc := of_decide_eq_true h2
    rw [hts] at hge
    exact absurd hge (not_le.mpr ht)

/-- Witness for C6's amended statement: the earlier double-append count. -/
theorem c6_no_dedup_witness :
    (append_and_trim [obsA] [obsA] 0 24).countP
        (fun o => o.site_no == "A" && o.timestamp_utc == (0 : ℤ)) =
      [obsA].countP (fun o => o.site_no == "A" && o.timestamp_utc == (0 : ℤ)) +
        [obsA].countP (fun o => o.site_no == "A" && o.timestamp_utc == (0 : ℤ)) :=
  (c6_no_dedup [obsA] [obsA] 0 24 "A" 0).1 (by decide)

/-- C7: every observation kept by append_and_trim has a timestamp at or after
the retention cutoff `now − hours`. -/
theorem c7_retention : ∀ (df_old df_new : List Obs) (now hours : ℤ) (o : Obs),
    o ∈ append_and_trim df_old df_new now hours →
    now - hours * 3600 ≤ o.timestamp_utc := by
  intro df_old df_new now hours o h
  unfold append_and_trim at h
  rw [List.mem_filter] at h
  exact of_decide_eq_true h.2

/-- Witness for C7 at a concrete store. -/
theorem c7_retention_witness : (0 : ℤ) - 24 * 3600 ≤ obsA.timestamp_utc :=
  c7_retention [obsA] [] 0 24 obsA (by decide)

/-! ## C9: load_last_timestamp -/

theorem foldlMax_init_le : ∀ (t : List ℤ) (a : ℤ), a ≤ t.foldl max a := by
  intro t
  induction t with
  | nil => intro a; exact le_refl a
  | cons x xs ih =>
    intro a
    calc a ≤ max a x := le_max_left a x
    _ ≤ xs.foldl max (max a x) := ih (max a x)

theorem foldlMax_le_of_mem : ∀ (t : List ℤ) (a x : ℤ), x ∈ t → x ≤ t.foldl max a := by
  intro t
  induction t with
  | nil => intro a x hx; exact absurd hx (List.not_mem_nil x)
  | cons y ys ih =>
    intro a x hx
    rcases List.mem_cons.mp hx with rfl | hx'
    · calc x ≤ max a x := le_max_right a x
      _ ≤ ys.foldl max (max a x) := foldlMax_init_le ys (max a x)
    · exact ih (max a y) x hx'

theorem foldlMax_mem_or_init : ∀ (t : List ℤ) (a : ℤ),
    t.foldl max a = a ∨ t.foldl max a ∈ t := by
  intro t
  induction t with
  | nil => intro a; exact Or.inl rfl
  | cons y ys ih =>
    intro a
    rcases ih (max a y) with h | h
    · rcases max_cases a y with ⟨hm, _⟩ | ⟨hm, _⟩
      · rw [List.foldl_cons, h, hm]
        exact Or.inl rfl
      · rw [List.foldl_cons, h, hm]
        exact Or.inr (List.mem_cons_self y ys)
    · exact Or.inr (List.mem_cons_of_mem y h)

theorem tsMax_mem : ∀ (l : List ℤ), l ≠ [] → tsMax l ∈ l := by
  intro l hl
  cases l with
  | nil => exact absurd rfl hl
  | cons x xs =>
    unfold tsMax
    rcases foldlMax_mem_or_init ((x :: xs).tail) ((x :: xs).headD 0) with h | h
    · show (x :: xs).foldl max ((x :: xs).headD 0) ∈ x :: xs
      rw [List.foldl_cons]
      rcases foldlMax_mem_or_init xs (max ((x :: xs).headD 0) x) with h2 | h2
      · rw [h2]
        simp
      · exact List.mem_cons_of_mem x h2
    · show (x :: xs).foldl max ((x :: xs).headD 0) ∈ x :: xs
      rw [List.foldl_cons]
      rcases foldlMax_mem_or_init xs (max ((x :: xs).headD 0) x) with h2 | h2
      · rw [h2]
        simp
      · exact List.mem_cons_of_mem x h2

theorem tsMax_ge : ∀ (l : List ℤ) (x : ℤ), x ∈ l → x ≤ tsMax l := by
  intro l x hx
  cases l with
  | nil => exact absurd hx (List.not_mem_nil x)
  | cons y ys =>
    unfold tsMax
    rw [List.foldl_cons]
    rcases List.mem_cons.mp hx with rfl | hx'
    · calc x ≤ max ((x :: ys).headD 0) x := le_max_right _ x
      _ ≤ ys.foldl max _ := foldlMax_init_le ys _
    · exact foldlMax_le_of_mem ys _ x hx'

/-- C9 counterexample: with a single stored timestamp 100, load_last_timestamp
returns 101, not the newest recorded timestamp 100. -/
theorem c9_counterexample :
    load_last_timestamp (some [100]) 0 = 101 ∧ (101 : ℤ) ≠ 100 := by decide

/-- C9 as amended: when prior data exists, load_last_timestamp returns the
newest stored timestamp plus one second (to avoid re-fetching the boundary
reading); on a missing store it returns `now − 24h`. -/
theorem c9_last_timestamp : ∀ now : ℤ,
    load_last_timestamp none now = now - 24 * 3600
    ∧ (∀ l : List ℤ, l ≠ [] →
        load_last_timestamp (some l) now = tsMax l + 1
        ∧ tsMax l ∈ l ∧ ∀ t ∈ l, t ≤ tsMax l) := by
  intro now
  refine ⟨rfl, ?_⟩
  intro l hl
  exact ⟨rfl, tsMax_mem l hl, fun t ht => tsMax_ge l t ht⟩

/-- Witness for C9's amended statement at a one-row store. -/
theorem c9_last_timestamp_witness :
    load_last_timestamp (some [100]) 0 = tsMax [100] + 1 :=
  ((c9_last_timestamp 0).2 [100] (by decide)).1

/-! ## C3, C4, C5: compare_to_historical -/

theorem mem_compare_cases {cur : List CurRow} {hist : List HistRow} {r : CmpRow}
    (h : r ∈ compare_to_historical cur hist) : ∃ c ∈ cur, ∃ p, r = mkCmpRow c p := by
  rw [compare_to_historical, List.mem_flatMap] at h
  obtain ⟨c, hc, hr⟩ := h
  refine ⟨c, hc, ?_⟩
  cases hm : histMatches hist c with
  | nil =>
    rw [hm, List.mem_singleton] at hr
    exact ⟨PVal.nan, hr⟩
  | cons x xs =>
    rw [hm, List.mem_map] at hr
    obtain ⟨hh, _, he⟩ := hr
    exact ⟨hh.p90_flow_cfs, he.symm⟩

/-- C3 as amended: in every output row, ratio is the flow cell IEEE-divided by
the p90 cell; a null flow or a null/missing baseline makes the ratio null; but
a baseline of exactly zero makes the ratio +infinity for a positive flow
(−infinity for a negative one), null only when the flow is zero too — never
null as the claim requires for the zero-baseline case. -/
theorem c3_ratio_rules :
    (∀ (cur : List CurRow) (hist : List HistRow) (r : CmpRow),
        r ∈ compare_to_historical cur hist →
        r.ratio = r.flow_cfs.div r.p90_flow_cfs)
    ∧ (∀ p : PVal, PVal.nan.div p = PVal.nan)
    ∧ (∀ v : PVal, v.div PVal.nan = PVal.nan)
    ∧ (∀ a : ℚ, 0 < a → (PVal.num a).div (PVal.num 0) = PVal.pinf)
    ∧ (∀ a : ℚ, a < 0 → (PVal.num a).div (PVal.num 0) = PVal.ninf)
    ∧ (PVal.num 0).div (PVal.num 0) = PVal.nan := by
  refine ⟨?_, PVal.nan_div, PVal.div_nan, ?_, ?_, ?_⟩
  · intro cur hist r h
    obtain ⟨c, _, p, rfl⟩ := mem_compare_cases h
    rfl
  · intro a ha
    show (if (0 : ℚ) = 0 then (if a = 0 then PVal.nan else if 0 < a then PVal.pinf
        else PVal.ninf) else PVal.num (qdiv a 0)) = PVal.pinf
    rw [if_pos rfl, if_neg ha.ne', if_pos ha]
  · intro a ha
    show (if (0 : ℚ) = 0 then (if a = 0 then PVal.nan else if 0 < a then PVal.pinf
        else PVal.ninf) else PVal.num (qdiv a 0)) = PVal.ninf
    rw [if_pos rfl, if_neg ha.ne, if_neg (not_lt.mpr ha.le)]
  · show (if (0 : ℚ) = 0 then (if (0 : ℚ) = 0 then PVal.nan else if (0:ℚ) < 0 then PVal.pinf
        else PVal.ninf) else PVal.num (qdiv 0 0)) = PVal.nan
    rw [if_pos rfl, if_pos rfl]

/-- C3 counterexample: with current flow 120 and a stored baseline of exactly
zero, the output ratio is +infinity, not null as the claim requires. -/
theorem c3_counterexample :
    (compare_to_historical c3cur c3hist).map CmpRow.ratio = [PVal.pinf]
    ∧ PVal.pinf ≠ PVal.nan := by decide

/-- Witness for C3's amended statement at the zero-baseline table. -/
theorem c3_ratio_rules_witness : c3row.ratio = c3row.flow_cfs.div c3row.p90_flow_cfs :=
  c3_ratio_rules.1 c3cur c3hist c3row (by decide)

/-- C4: high_flow is the IEEE comparison `ratio >= 1.0`: it is true at ratio
exactly 1, false at ratio 999999/1000000, and false when the ratio is
undefined; a current row with no baseline entry yields p90 null, ratio null,
high_flow false. -/
theorem c4_high_flow_rules :
    (∀ (cur : List CurRow) (hist : List HistRow) (r : CmpRow),
        r ∈ compare_to_historical cur hist →
        r.high_flow = r.ratio.ge (PVal.num 1))
    ∧ PVal.nan.ge (PVal.num 1) = false
    ∧ (PVal.num 1).ge (PVal.num 1) = true
    ∧ (PVal.num (Rat.divInt 999999 1000000)).ge (PVal.num 1) = false
    ∧ compare_to_historical c4cur [] =
        [⟨"X2", "Site X2", 0, PVal.num 7, PVal.nan, PVal.nan, false⟩]
    ∧ (compare_to_historical c4curOne c4hist100).map CmpRow.high_flow = [true]
    ∧ (compare_to_historical c4curBelow c4histM).map CmpRow.high_flow = [false] := by
  refine ⟨?_, rfl, by decide, by decide, by decide, by decide, by decide⟩
  intro cur hist r h
  obtain ⟨c, _, p, rfl⟩ := mem_compare_cases h
  rfl

/-- Witness for C4 at the missing-baseline scenario. -/
theorem c4_high_flow_rules_witness : c4row.high_flow = c4row.ratio.ge (PVal.num 1) :=
  c4_high_flow_rules.1 c4cur [] c4row (by decide)

theorem mem_histMatches {hist : List HistRow} {c : CurRow} {x : HistRow} :
    x ∈ histMatches hist c ↔ x ∈ hist ∧ keyOf x = (c.site_no, c.day_of_year) := by
  rw [histMatches, List.mem_filter]
  constructor
  · intro ⟨h1, h2⟩
    refine ⟨h1, ?_⟩
    have hs := eq_of_beq (Bool.and_elim_left h2)
    have hd := eq_of_beq (Bool.and_elim_right h2)
    rw [keyOf, hs, hd]
  · intro ⟨h1, h2⟩
    refine ⟨h1, ?_⟩
    rw [keyOf] at h2
    have hs : x.site_no = c.site_no := congrArg Prod.fst h2
    have hd : x.day_of_year = c.day_of_year := congrArg Prod.snd h2
    exact Bool.and_intro (beq_of_eq hs) (beq_of_eq hd)

theorem histMatches_len_le_one (hist : List HistRow)
    (hnd : hist.Pairwise (fun a b => keyOf a ≠ keyOf b)) (c : CurRow) :
    (histMatches hist c).length ≤ 1 := by
  induction hist with
  | nil => simp [histMatches]
  | cons hh t ih =>
    rw [List.pairwise_cons] at hnd
    by_cases hp : (hh.site_no == c.site_no && hh.day_of_year == c.day_of_year) = true
    · have hstep : histMatches (hh :: t) c = hh :: histMatches t c := by
        rw [histMatches, histMatches]
        exact List.filter_cons_of_pos hp
      have hnil : histMatches t c = [] := by
        rw [histMatches, List.filter_eq_nil_iff]
        intro x hx hcontra
        have hxkey : keyOf x = (c.site_no, c.day_of_year) := by
          have hs := eq_of_beq (Bool.and_elim_left hcontra)
          have hd := eq_of_beq (Bool.and_elim_right hcontra)
          rw [keyOf, hs, hd]
        have hhkey : keyOf hh = (c.site_no, c.day_of_year) := by
          have hs := eq_of_beq (Bool.and_elim_left hp)
          have hd := eq_of_beq (Bool.and_elim_right hp)
          rw [keyOf, hs, hd]
        exact hnd.1 x hx (hhkey.trans hxkey.symm)
      rw [hstep, hnil]
      simp
    · have hstep : histMatches (hh :: t) c = histMatches t c := by
        rw [histMatches, histMatches]
        exact List.filter_cons_of_neg hp
      rw [hstep]
      exact ih hnd.2

theorem compare_cons (c : CurRow) (t : List CurRow) (hist : List HistRow) :
    compare_to_historical (c :: t) hist =
      (match histMatches hist c with
        | [] => [mkCmpRow c PVal.nan]
        | ms => ms.map (fun x => mkCmpRow c x.p90_flow_cfs)) ++
        compare_to_historical t hist := by
  simp only [compare_to_historical, List.flatMap_cons]

/-- C5: every row of the current snapshot is retained by the left merge (no
entity is dropped for a missing baseline), and when the baseline table has at
most one row per (site_no, day_of_year) key, each site occurs in the output
exactly as often as in the current snapshot — so a site appearing once in the
snapshot appears exactly once in the output. -/
theorem c5_left_join_complete : ∀ (cur : List CurRow) (hist : List HistRow),
    (hist.Pairwise (fun a b => keyOf a ≠ keyOf b) →
      ∀ s : String, (compare_to_historical cur hist).countP (fun r => r.site_no == s)
        = cur.countP (fun c => c.site_no == s))
    ∧ (∀ c ∈ cur, ∃ r ∈ compare_to_historical cur hist,
        r.site_no = c.site_no ∧ r.timestamp_utc = c.timestamp_utc) := by
  intro cur hist
  constructor
  · intro hnd s
    induction cur with
    | nil => rfl
    | cons c t ih =>
      rw [compare_cons, List.countP_append, ih, List.countP_cons]
      cases hm : histMatches hist c with
      | nil =>
        simp only [List.countP_cons, List.countP_nil, mkCmpRow]
        omega
      | cons x xs =>
        have hlen := histMatches_len_le_one hist hnd c
        rw [hm] at hlen
        have hxs : xs = [] := by
          cases xs with
          | nil => rfl
          | cons y ys => simp at hlen
        subst hxs
        simp only [List.map_cons, List.map_nil, List.countP_cons, List.countP_nil, mkCmpRow]
        omega
  · intro c hc
    cases hm : histMatches hist c with
    | nil =>
      refine ⟨mkCmpRow c PVal.nan, ?_, rfl, rfl⟩
      rw [compare_to_historical, List.mem_flatMap]
      exact ⟨c, hc, by rw [hm]; exact List.mem_singleton.mpr rfl⟩
    | cons x xs =>
      refine ⟨mkCmpRow c x.p90_flow_cfs, ?_, rfl, rfl⟩
      rw [compare_to_historical, List.mem_flatMap]
      refine ⟨c, hc, ?_⟩
      rw [hm]
      exact List.mem_map.mpr ⟨x, List.mem_cons_self x xs, rfl⟩

/-- Witness for C5: counts agree on the concrete zero-baseline tables. -/
theorem c5_left_join_complete_witness :
    (compare_to_historical c3cur c3hist).countP (fun r => r.site_no == "X1")
      = c3cur.countP (fun c => c.site_no == "X1") :=
  (c5_left_join_complete c3cur c3hist).1 (by decide) "X1"

/-! ## C8: one output row per site, at the maximum timestamp -/

theorem mem_siteSeries {tbl : List Row} {s : String} {r : Row} :
    r ∈ siteSeries tbl s ↔ r ∈ tbl ∧ r.site_no = s := by
  rw [siteSeries,
    (List.perm_insertionSort tsLe (tbl.filter (fun q => q.site_no == s))).mem_iff,
    List.mem_filter]
  simp only [beq_iff_eq]

theorem siteSeries_sorted (tbl : List Row) (s : String) :
    List.Sorted tsLe (siteSeries tbl s) :=
  List.sorted_insertionSort tsLe (tbl.filter (fun q => q.site_no == s))

theorem sorted_getLast_max : ∀ {l : List Row}, List.Sorted tsLe l →
    ∀ {x last : Row}, x ∈ l → l.getLast? = some last →
    x.timestamp_utc ≤ last.timestamp_utc := by
  intro l
  induction l with
  | nil =>
    intro _ x last hx _
    exact absurd hx (List.not_mem_nil x)
  | cons a t ih =>
    intro hs x last hx hl
    rw [List.sorted_cons] at hs
    cases t with
    | nil =>
      have hxa : x = a := by simpa using hx
      have hla : a = last := by simpa using hl
      rw [hxa, hla]
    | cons b u =>
      rw [List.getLast?_cons_cons] at hl
      rcases List.mem_cons.mp hx with rfl | hx2
      · exact hs.1 last (List.mem_of_getLast?_eq_some hl)
      · exact ih hs.2 hx2 hl

theorem siteSeries_ne_nil {tbl : List Row} {s : String} (h : s ∈ tbl.map Row.site_no) :
    siteSeries tbl s ≠ [] := by
  rw [List.mem_map] at h
  obtain ⟨r, hr, hsite⟩ := h
  intro hnil
  have hmem : r ∈ siteSeries tbl s := mem_siteSeries.mpr ⟨hr, hsite⟩
  rw [hnil] at hmem
  exact absurd hmem (List.not_mem_nil r)

theorem latestResult_of_getLast_none {tbl : List Row} {s : String}
    (h : (siteSeries tbl s).getLast? = none) : latestResult tbl s = none := by
  unfold latestResult
  rw [h]

theorem latestResult_of_getLast_some {tbl : List Row} {s : String} {last : Row}
    (h : (siteSeries tbl s).getLast? = some last) :
    latestResult tbl s = some (ResRow.mk s last.site_name last.timestamp_utc
      last.flow_cfs (pctsFor ((siteSeries tbl s).map Row.flow_cfs)
        ((siteSeries tbl s).length - 1))) := by
  unfold latestResult
  rw [h]

theorem latestResult_site {tbl : List Row} {s : String} {res : ResRow}
    (h : latestResult tbl s = some res) : res.site_no = s := by
  cases hl : (siteSeries tbl s).getLast? with
  | none =>
    rw [latestResult_of_getLast_none hl] at h
    cases h
  | some last =>
    rw [latestResult_of_getLast_some hl] at h
    rw [← Option.some_inj.mp h]

theorem latestResult_isSome {tbl : List Row} {s : String}
    (hmem : s ∈ tbl.map Row.site_no) : (latestResult tbl s).isSome := by
  cases hl : (siteSeries tbl s).getLast? with
  | none =>
    exact absurd (List.getLast?_eq_none_iff.mp hl) (siteSeries_ne_nil hmem)
  | some last =>
    rw [latestResult_of_getLast_some hl]
    rfl

theorem countP_filterMap_latest (tbl : List Row) : ∀ (l : List String), l.Nodup →
    ∀ s : String,
    (l.filterMap (latestResult tbl)).countP (fun r => r.site_no == s) =
      if s ∈ l ∧ (latestResult tbl s).isSome then 1 else 0 := by
  intro l
  induction l with
  | nil =>
    intro _ s
    simp
  | cons x t ih =>
    intro hnd s
    rw [List.nodup_cons] at hnd
    rw [List.filterMap_cons]
    cases hx : latestResult tbl x with
    | none =>
      rw [ih hnd.2 s]
      by_cases hxs : s = x
      · subst hxs
        have h1 : s ∉ t := hnd.1
        simp [h1, hx]
      · simp only [List.mem_cons]
        by_cases hst : s ∈ t
        · simp [hst]
        · simp [hst, hxs]
    | some res =>
      have hsite : res.site_no = x := latestResult_site hx
      rw [List.countP_cons, ih hnd.2 s]
      by_cases hxs : s = x
      · subst hxs
        have h1 : s ∉ t := hnd.1
        have hpred : (res.site_no == s) = true := beq_of_eq hsite
        simp [h1, hx, hpred]
      · have hpred : (res.site_no == s) = false := by
          rw [hsite]
          exact beq_eq_false_iff_ne.mpr (Ne.symm hxs)
        simp only [List.mem_cons]
        by_cases hst : s ∈ t
        · simp [hst, hpred]
        · simp [hst, hxs, hpred]

/-- C8: for every input table, the rate-of-change output has exactly one row
per site present in the input; that row's timestamp is the maximum timestamp
of the site's rows (attained by one of them), and it carries the pct_change
values computed at the last position of the site's sorted series. -/
theorem c8_latest_row_per_site : ∀ tbl : List Row,
    (∀ s : String, (compute_rate_of_change tbl).countP (fun r => r.site_no == s) =
        if s ∈ tbl.map Row.site_no then 1 else 0)
    ∧ (∀ r ∈ compute_rate_of_change tbl,
        (∃ q ∈ tbl, q.site_no = r.site_no ∧ q.timestamp_utc = r.timestamp_utc)
        ∧ (∀ q ∈ tbl, q.site_no = r.site_no → q.timestamp_utc ≤ r.timestamp_utc)
        ∧ r.pcts = pctsFor ((siteSeries tbl r.site_no).map Row.flow_cfs)
            ((siteSeries tbl r.site_no).length - 1)) := by
  intro tbl
  constructor
  · intro s
    rw [compute_rate_of_change,
      countP_filterMap_latest tbl (sitesOf tbl) (List.nodup_dedup _) s]
    by_cases hmem : s ∈ tbl.map Row.site_no
    · rw [if_pos ⟨List.mem_dedup.mpr hmem, latestResult_isSome hmem⟩, if_pos hmem]
    · rw [if_neg (fun hcon => hmem (List.mem_dedup.mp hcon.1)), if_neg hmem]
  · intro r hr
    rw [compute_rate_of_change, List.mem_filterMap] at hr
    obtain ⟨s, _, hsome⟩ := hr
    cases hl : (siteSeries tbl s).getLast? with
    | none =>
      rw [latestResult_of_getLast_none hl] at hsome
      cases hsome
    | some last =>
      rw [latestResult_of_getLast_some hl] at hsome
      have hres : r = ResRow.mk s last.site_name last.timestamp_utc last.flow_cfs
          (pctsFor ((siteSeries tbl s).map Row.flow_cfs)
            ((siteSeries tbl s).length - 1)) := (Option.some_inj.mp hsome).symm
      subst hres
      have hlmem : last ∈ siteSeries tbl s := List.mem_of_getLast?_eq_some hl
      have hltbl := mem_siteSeries.mp hlmem
      refine ⟨⟨last, hltbl.1, hltbl.2, rfl⟩, ?_, rfl⟩
      intro q hq hqsite
      exact sorted_getLast_max (siteSeries_sorted tbl s)
        (mem_siteSeries.mpr ⟨hq, hqsite⟩) hl

/-- Witness for C8 at the concrete scenario: the output row carries the
pct_change values computed at the last position of the site's series. -/
theorem c8_latest_row_per_site_witness :
    c8row.pcts = pctsFor ((siteSeries exTbl c8row.site_no).map Row.flow_cfs)
      ((siteSeries exTbl c8row.site_no).length - 1) :=
  ((c8_latest_row_per_site exTbl).2 c8row (by decide)).2.2

/-! ## C10: non-numeric daily values are skipped in the baseline build -/

theorem mem_fetch_chunk {raws : List RawDV} {d : DVRecord} :
    d ∈ fetch_va_dv_chunk raws ↔
      ∃ r ∈ raws, r.site_no = d.site_no ∧ r.site_name = d.site_name ∧
        r.day_of_year = d.day_of_year ∧ r.lat = d.lat ∧
        r.val = RawVal.numeric d.flow_cfs := by
  rw [fetch_va_dv_chunk, List.mem_filterMap]
  constructor
  · intro ⟨r, hr, hf⟩
    rw [Option.map_eq_some'] at hf
    obtain ⟨q, hq, hd⟩ := hf
    have hval : r.val = RawVal.numeric q := by
      cases hv : r.val with
      | null => rw [hv] at hq; cases hq
      | text t => rw [hv] at hq; cases hq
      | numeric q2 =>
        rw [hv] at hq
        exact congrArg RawVal.numeric (Option.some_inj.mp hq)
    refine ⟨r, hr, ?_, ?_, ?_, ?_, ?_⟩ <;> rw [← hd]
    exact hval
  · intro ⟨r, hr, h1, h2, h3, h4, h5⟩
    refine ⟨r, hr, ?_⟩
    rw [h5]
    show some (DVRecord.mk r.site_no r.site_name r.day_of_year r.lat d.flow_cfs) = some d
    rw [h1, h2, h3, h4]
  
theorem mem_p90_entries {data : List DVRecord}
    {e : (String × String × String × ℕ) × ℚ} (he : e ∈ compute_p90_by_day data) :
    e.1 ∈ data.map groupKey ∧
      e.2 = quantile90 ((data.filter (fun d => decide (groupKey d = e.1))).map
        DVRecord.flow_cfs) := by
  rw [compute_p90_by_day, List.mem_map] at he
  obtain ⟨k, hk, hke⟩ := he
  rw [← hke]
  exact ⟨List.mem_dedup.mp hk, rfl⟩

theorem p90_entry_exists {data : List DVRecord} {d : DVRecord} (hd : d ∈ data) :
    ∃ e ∈ compute_p90_by_day data, e.1 = groupKey d := by
  refine ⟨(groupKey d, quantile90 ((data.filter
    (fun x => decide (groupKey x = groupKey d))).map DVRecord.flow_cfs)), ?_, rfl⟩
  rw [compute_p90_by_day, List.mem_map]
  exact ⟨groupKey d, List.mem_dedup.mpr (List.mem_map.mpr ⟨d, hd, rfl⟩), rfl⟩

/-- C10: the baseline build keeps only numeric daily values — a null, empty
or non-numeric (e.g. "Ice") reading is skipped entirely rather than kept with
a null flow; each p90 entry is the 0.9 quantile of exactly the kept numeric
values of its group; and a (site, day_of_year) pair has a baseline entry iff
some historical reading for it is numeric (so an all-non-numeric pair has no
entry at all). -/
theorem c10_nonnumeric_skipped : ∀ raws : List RawDV,
    (∀ d : DVRecord, d ∈ fetch_va_dv_chunk raws ↔
        ∃ r ∈ raws, r.site_no = d.site_no ∧ r.site_name = d.site_name ∧
          r.day_of_year = d.day_of_year ∧ r.lat = d.lat ∧
          r.val = RawVal.numeric d.flow_cfs)
    ∧ (∀ e ∈ compute_p90_by_day (fetch_va_dv_chunk raws),
        e.2 = quantile90 (((fetch_va_dv_chunk raws).filter
          (fun d => decide (groupKey d = e.1))).map DVRecord.flow_cfs))
    ∧ (∀ (s : String) (dy : ℕ),
        (∃ e ∈ compute_p90_by_day (fetch_va_dv_chunk raws),
          e.1.1 = s ∧ e.1.2.2.2 = dy) ↔
        (∃ r ∈ raws, r.site_no = s ∧ r.day_of_year = dy ∧
          ∃ q : ℚ, r.val = RawVal.numeric q)) := by
  intro raws
  refine ⟨fun d => mem_fetch_chunk, fun e he => (mem_p90_entries he).2, ?_⟩
  intro s dy
  constructor
  · intro ⟨e, he, hs, hdy⟩
    have hk := (mem_p90_entries he).1
    rw [List.mem_map] at hk
    obtain ⟨d, hd, hkd⟩ := hk
    obtain ⟨r, hr, h1, _, h3, _, h5⟩ := mem_fetch_chunk.mp hd
    have hproj1 : (groupKey d).1 = d.site_no := rfl
    have hproj2 : (groupKey d).2.2.2 = d.day_of_year := rfl
    refine ⟨r, hr, ?_, ?_, d.flow_cfs, h5⟩
    · calc r.site_no = d.site_no := h1
        _ = (groupKey d).1 := hproj1.symm
        _ = e.1.1 := by rw [hkd]
        _ = s := hs
    · calc r.day_of_year = d.day_of_year := h3
        _ = (groupKey d).2.2.2 := hproj2.symm
        _ = e.1.2.2.2 := by rw [hkd]
        _ = dy := hdy
  · intro ⟨r, hr, h1, h2, q, hq⟩
    have hd : DVRecord.mk r.site_no r.site_name r.day_of_year r.lat q ∈
        fetch_va_dv_chunk raws :=
      mem_fetch_chunk.mpr ⟨r, hr, rfl, rfl, rfl, rfl, hq⟩
    obtain ⟨e, he, hke⟩ := p90_entry_exists hd
    refine ⟨e, he, ?_, ?_⟩
    · rw [hke]
      exact h1
    · rw [hke]
      exact h2

/-- Witness for C10: the (X3, 201) group of the concrete raw table has a
baseline entry because it has numeric readings. -/
theorem c10_nonnumeric_skipped_witness :
    (∃ e ∈ compute_p90_by_day (fetch_va_dv_chunk raws10),
      e.1.1 = "X3" ∧ e.1.2.2.2 = 201) ↔
    (∃ r ∈ raws10, r.site_no = "X3" ∧ r.day_of_year = 201 ∧
      ∃ q : ℚ, r.val = RawVal.numeric q) :=
  (c10_nonnumeric_skipped raws10).2.2 "X3" 201
